import Mathlib

/-
Verification of the PostgreSQL destination module
(src/dags/tasks/destinations/postgres_destination.py).

The development shallowly embeds the parts of the module that the claims
are about:

* record hashing (`_calculate_record_hash`, `_calculate_id_hash`): records
  are association lists of column name to value, values modelled after the
  str() rendering the source applies inside its f-strings; the digest
  function (md5/sha256) is an abstract parameter since the claims are about
  the canonicalization, not the digest internals;
* system-column enrichment (`_enrich_with_system_columns`): the single
  datetime.now() sample taken at the top of the function is a parameter;
* the four SCD2 merge phases of `_merge_historized_data`: each SQL
  statement becomes a pointwise update of a list of rows; the SQL
  BEGIN/COMMIT/ROLLBACK discipline becomes an explicit transaction model
  with a phase-failure oracle;
* the load orchestration of `load` / `pre_load_hook` for both the
  historize and the non-historize branches, including the chunked
  commit-every-1000 insert of hook.insert_rows and the truncate performed
  by pre_load_hook;
* configuration validation (`validate_config`, `__init__`).

Timestamps are modelled as naturals, table contents as lists of rows.
-/

namespace DataForge

/-! ### Python string comparison

Model of the code-point lexicographic comparison Python applies when
sorting `record.items()`.  The built-in Lean String order does not reduce
in the kernel, so the comparison is defined structurally on the character
data. -/

/-- Lexicographic strict comparison of character lists by code point. -/
def charListLt : List Char → List Char → Bool
  | [], [] => false
  | [], _ :: _ => true
  | _ :: _, [] => false
  | a :: as, b :: bs => if a < b then true else if b < a then false else charListLt as bs

/-- Strict comparison of strings, modelling the Python string order. -/
def strLt (a b : String) : Bool := charListLt a.data b.data

/-- Comparison of (key, value) pairs, modelling Python tuple comparison as
used by sorted(record.items()): compare keys first, values on key ties. -/
def pairLe (x y : String × String) : Prop :=
  strLt x.1 y.1 = true ∨ (x.1 = y.1 ∧ strLt y.2 x.2 = false)

instance : DecidableRel pairLe := fun _ _ => inferInstanceAs (Decidable (_ ∨ _))

/-! ### Record hashing -/

/-- A record: association list from column name to (string-rendered) value.
Dicts produced upstream have unique keys; insertion order is the list
order. -/
abbrev Rec := List (String × String)

/-- Python str.join with a separator. -/
def joinSep (sep : String) : List String → String
  | [] => ""
  | [x] => x
  | x :: xs => x ++ sep ++ joinSep sep (xs)

/-- Model of sorted(record.items()). -/
def sortedItems (record : Rec) : Rec := List.insertionSort pairLe record

/-- Rendering of one item inside the canonical string: "k:v". -/
def renderItem (kv : String × String) : String := kv.1 ++ ":" ++ kv.2

/-- Record with the value of column `k` replaced by `v2` (the keys are
unchanged): the single-field change of the hash-sensitivity property. -/
def updateValue (k v2 : String) (record : Rec) : Rec :=
  record.map fun kv => if kv.1 = k then (k, v2) else kv

/-- Canonical string of `_calculate_record_hash` (lines 126-128):
sorted items rendered as "k:v" joined with "|". -/
def recordCanonical (record : Rec) : String :=
  joinSep "|" ((sortedItems record).map renderItem)

/-- Model of `_calculate_record_hash` (lines 116-133); `digest` stands for
the configured md5/sha256 hexdigest. -/
def calculateRecordHash (digest : String → String) (record : Rec) : String :=
  digest (recordCanonical record)

/-- Value lookup modelling record.get(col, "") of line 146 (with str()
rendering): a missing column yields the empty string. -/
def idValue (record : Rec) (col : String) : String :=
  ((record.find? fun kv => kv.1 == col).map fun kv => kv.2).getD ""

/-- Canonical string of `_calculate_id_hash` (lines 145-147): the values of
the configured id columns, in configured order, joined with "|". -/
def idCanonical (idColumns : List String) (record : Rec) : String :=
  joinSep "|" (idColumns.map (idValue record))

/-- Model of `_calculate_id_hash` (lines 135-152). -/
def calculateIdHash (digest : String → String) (idColumns : List String) (record : Rec) :
    String :=
  digest (idCanonical idColumns record)

/-! ### Rows and the historized target table -/

/-- One row of the historized target table (or of the staging relation):
the inferred data columns plus the nine system columns of lines 183-194. -/
structure Row where
  idHash : String
  recordHash : String
  validFrom : Nat
  validTo : Option Nat
  deletedAt : Option Nat
  loadedAt : Nat
  pipelineRunId : Option String
  sourceSystem : String
  loadBatchId : String
  data : Rec
deriving Repr, DecidableEq

/-- Row predicate of the SQL condition _valid_to IS NULL AND _deleted_at
IS NULL. -/
def isCurrentRow (r : Row) : Bool := r.validTo.isNone && r.deletedAt.isNone

/-! ### The four merge phases of `_merge_historized_data`

Each phase embeds one of the four SQL statements built at lines 649-729,
executed in order at lines 743-771.  `t` is the single merge timestamp of
line 635. -/

/-- Row update of restore_sql (lines 649-659). -/
def restoreRow (t : Nat) (staging : List Row) (r : Row) : Row :=
  if r.deletedAt.isSome && r.validTo.isNone && staging.any (fun s => s.idHash == r.idHash)
  then { r with deletedAt := none, validFrom := t }
  else r

/-- Phase 1, restore: clear _deleted_at and set _valid_from for deleted,
non-superseded rows whose _id_hash occurs in staging. -/
def restorePhase (t : Nat) (staging tgt : List Row) : List Row :=
  tgt.map (restoreRow t staging)

/-- Row update of supersede_sql (lines 662-672). -/
def supersedeRow (t : Nat) (staging : List Row) (r : Row) : Row :=
  if r.validTo.isNone && r.deletedAt.isNone &&
      staging.any (fun s => s.idHash == r.idHash && s.recordHash != r.recordHash)
  then { r with validTo := some t }
  else r

/-- Phase 2, supersede: set _valid_to on current rows contradicted by a
staging row with the same _id_hash and a different _record_hash. -/
def supersedePhase (t : Nat) (staging tgt : List Row) : List Row :=
  tgt.map (supersedeRow t staging)

/-- Target row built by insert_sql (lines 693-713) from a staging row: data
columns and hashes are carried over, the lifecycle timestamps are
regenerated from the merge timestamp. -/
def insertRowOfStaging (t : Nat) (s : Row) : Row :=
  { idHash := s.idHash, recordHash := s.recordHash, validFrom := t, validTo := none,
    deletedAt := none, loadedAt := t, pipelineRunId := s.pipelineRunId,
    sourceSystem := s.sourceSystem, loadBatchId := s.loadBatchId, data := s.data }

/-- NOT EXISTS subquery of insert_sql: a current target row with the same
(_id_hash, _record_hash) pair. -/
def hasMatchingCurrent (tgt : List Row) (s : Row) : Bool :=
  tgt.any fun r =>
    r.idHash == s.idHash && r.recordHash == s.recordHash &&
      r.validTo.isNone && r.deletedAt.isNone

/-- Phase 3, insert: add every staging row without a matching current
target row.  The source skips the statement when the staging relation is
empty (the `if result` guard of line 686), which is a no-op either way. -/
def insertPhase (t : Nat) (staging tgt : List Row) : List Row :=
  match staging with
  | [] => tgt
  | _ :: _ =>
      tgt ++ (staging.filter fun s => !hasMatchingCurrent tgt s).map (insertRowOfStaging t)

/-- Row update of delete_sql (lines 720-729). -/
def deleteRow (t : Nat) (staging : List Row) (r : Row) : Row :=
  if r.validTo.isNone && r.deletedAt.isNone && !(staging.any fun s => s.idHash == r.idHash)
  then { r with deletedAt := some t }
  else r

/-- Phase 4, delete: mark current rows whose _id_hash is absent from
staging. -/
def deletePhase (t : Nat) (staging tgt : List Row) : List Row :=
  tgt.map (deleteRow t staging)

/-- Model of `_merge_historized_data` (lines 614-803): the four phases in
source order; the delete statement is built only when track_deletes is
enabled (lines 718-729). -/
def mergeHistorizedData (trackDeletes : Bool) (t : Nat) (staging tgt : List Row) :
    List Row :=
  let afterRestore := restorePhase t staging tgt
  let afterSupersede := supersedePhase t staging afterRestore
  let afterInsert := insertPhase t staging afterSupersede
  if trackDeletes then deletePhase t staging afterInsert else afterInsert

/-! ### Spec-side phase descriptions (for the refinement claim C2)

These definitions follow the wording of the specification sentence by
sentence, to be compared with the SQL-derived definitions above. -/

/-- Spec wording: restore clears _deleted_at and sets _valid_from for
non-superseded deleted rows whose id_hash appears in staging. -/
def restoreSpec (t : Nat) (staging tgt : List Row) : List Row :=
  tgt.map fun r =>
    if r.deletedAt ≠ none ∧ r.validTo = none ∧ r.idHash ∈ staging.map Row.idHash
    then { r with deletedAt := none, validFrom := t }
    else r

/-- Spec wording: supersede sets _valid_to on current rows whose id_hash
matches a staging row with a different record_hash. -/
def supersedeSpec (t : Nat) (staging tgt : List Row) : List Row :=
  tgt.map fun r =>
    if r.validTo = none ∧ r.deletedAt = none ∧
        (∃ s ∈ staging, s.idHash = r.idHash ∧ s.recordHash ≠ r.recordHash)
    then { r with validTo := some t }
    else r

/-- Spec wording: insert adds every staging row with no current target row
matching its (id_hash, record_hash) pair. -/
def insertSpec (t : Nat) (staging tgt : List Row) : List Row :=
  tgt ++
    ((staging.filter fun s =>
        decide (¬ ∃ r ∈ tgt, r.validTo = none ∧ r.deletedAt = none ∧
          r.idHash = s.idHash ∧ r.recordHash = s.recordHash)).map
      (insertRowOfStaging t))

/-- Spec wording: the delete phase marks current rows whose id_hash is
absent from staging. -/
def deleteSpec (t : Nat) (staging tgt : List Row) : List Row :=
  tgt.map fun r =>
    if r.validTo = none ∧ r.deletedAt = none ∧ r.idHash ∉ staging.map Row.idHash
    then { r with deletedAt := some t }
    else r

/-- Spec wording of the whole merge: exactly four phases in the fixed
order restore, supersede, insert, delete, the last one only when
track_deletes is enabled. -/
def mergeSpec (trackDeletes : Bool) (t : Nat) (staging tgt : List Row) : List Row :=
  let afterRestore := restoreSpec t staging tgt
  let afterSupersede := supersedeSpec t staging afterRestore
  let afterInsert := insertSpec t staging afterSupersede
  if trackDeletes then deleteSpec t staging afterInsert else afterInsert

/-! ### Invariants on the target table -/

/-- Current row for a given id_hash. -/
def currentAt (h : String) (r : Row) : Bool := isCurrentRow r && r.idHash == h

/-- Row with _valid_to = null for a given id_hash (current or deleted). -/
def tipAt (h : String) (r : Row) : Bool := r.validTo.isNone && r.idHash == h

/-- The at-most-one-current invariant of the specification. -/
def atMostOneCurrent (tgt : List Row) : Prop :=
  ∀ h, tgt.countP (currentAt h) ≤ 1

/-- Strengthened invariant: at most one _valid_to = null row per id_hash. -/
def atMostOneTip (tgt : List Row) : Prop :=
  ∀ h, tgt.countP (tipAt h) ≤ 1

/-- The §6 assumption on an input batch: identifying keys are unique. -/
def uniqueIdHashes (staging : List Row) : Prop :=
  (staging.map Row.idHash).Nodup

/-! ### Transaction model of the merge

The source runs the four phases between an explicit BEGIN (line 747) and
COMMIT (line 774) on one connection and issues ROLLBACK on any exception
(line 788) before re-raising.  The model runs the phases of `phaseList` in
order; the oracle `failAt` names the phase whose SQL statement raises.
Only a completed run publishes the worked state; a failed run leaves the
committed table untouched. -/

inductive MergePhase where
  | restore
  | supersede
  | insert
  | delete
deriving Repr, DecidableEq

/-- Phase order of the statement sequence at lines 750-771; the delete
statement exists only when track_deletes is enabled. -/
def phaseList (trackDeletes : Bool) : List MergePhase :=
  [MergePhase.restore, MergePhase.supersede, MergePhase.insert] ++
    (if trackDeletes then [MergePhase.delete] else [])

/-- Effect of one phase on the in-transaction working state. -/
def applyPhase (p : MergePhase) (t : Nat) (staging work : List Row) : List Row :=
  match p with
  | MergePhase.restore => restorePhase t staging work
  | MergePhase.supersede => supersedePhase t staging work
  | MergePhase.insert => insertPhase t staging work
  | MergePhase.delete => deletePhase t staging work

/-- Run the listed phases over the working state; the phase named by
`failAt` raises instead of executing. -/
def mergeTxGo (failAt : Option MergePhase) (t : Nat) (staging : List Row) :
    List MergePhase → List Row → Except String (List Row)
  | [], work => Except.ok work
  | p :: ps, work =>
      if failAt = some p then Except.error "merge phase failed"
      else mergeTxGo failAt t staging ps (applyPhase p t staging work)

/-- One merge transaction: BEGIN from the committed table, run the phases,
COMMIT on success. -/
def runMergeTx (failAt : Option MergePhase) (trackDeletes : Bool) (t : Nat)
    (staging tgt : List Row) : Except String (List Row) :=
  mergeTxGo failAt t staging (phaseList trackDeletes) tgt

/-- The committed target table after the transaction: the worked state
when it committed, the pre-merge state after a ROLLBACK. -/
def observedTableAfterMerge (failAt : Option MergePhase) (trackDeletes : Bool) (t : Nat)
    (staging tgt : List Row) : List Row :=
  match runMergeTx failAt trackDeletes t staging tgt with
  | Except.ok work => work
  | Except.error _ => tgt

/-! ### Enrichment -/

/-- Model of `_enrich_with_system_columns` (lines 154-197): one clock
sample `t` (the current_timestamp of line 168) stamps _valid_from and
_loaded_at of every record of the batch; hashes are computed per record.
The _load_batch_id f-string of line 193 is abstracted into one parameter,
and _pipeline_run_id/_source_system are the context-derived constants of
lines 171-192. -/
def enrichWithSystemColumns (digest : String → String) (idColumns : List String) (t : Nat)
    (runId : Option String) (sourceSystem batchId : String) (data : List Rec) : List Row :=
  data.map fun record =>
    { idHash := calculateIdHash digest idColumns record,
      recordHash := calculateRecordHash digest record,
      validFrom := t, validTo := none, deletedAt := none, loadedAt := t,
      pipelineRunId := runId, sourceSystem := sourceSystem, loadBatchId := batchId,
      data := record }

/-! ### Load orchestration -/

/-- Result dictionary of `load` restricted to the claim-relevant keys. -/
structure LoadResult where
  rowsLoaded : Nat
  status : String
  durationSeconds : Nat
deriving Repr, DecidableEq

/-- Result returned for an empty input batch (lines 273-279). -/
def emptyLoadResult : LoadResult :=
  { rowsLoaded := 0, status := "success", durationSeconds := 0 }

/-- Model of `pre_load_hook` (lines 199-255) for the target-table content.
Output: target table after the hook, the use_temp_table flag, and the list
of relation-level operations performed.  Table creation does not change
modelled content but is logged as an operation.  The direct truncate of
line 255 is executed (and committed) here, before `load` runs. -/
def preLoadHook (writeMode : String) (threshold : Nat) (data : List Rec) (tgt : List Rec) :
    List Rec × Bool × List String :=
  if data.isEmpty then (tgt, false, [])
  else if writeMode = "historize" then (tgt, false, ["create_target_table"])
  else if data.length > threshold then (tgt, true, ["create_temp_table"])
  else if writeMode = "truncate" then ([], false, ["create_target_table", "truncate_target"])
  else (tgt, false, ["create_target_table"])

/-- Model of hook.insert_rows with commit_every (line 378-383): rows are
committed in chunks of `commitEvery`; a failure at row index `k` leaves
exactly the fully committed chunks in the table. -/
def insertRowsChunked (commitEvery : Nat) (rows : List Rec) (failAt : Option Nat)
    (tbl : List Rec) : Option String × List Rec :=
  match failAt with
  | none => (none, tbl ++ rows)
  | some k =>
      if k < rows.length then
        (some "insert failed", tbl ++ rows.take (commitEvery * (k / commitEvery)))
      else (none, tbl ++ rows)

/-- Model of `_swap_tables` (lines 576-612): a single atomic statement
reconciling the temp relation into the target. -/
def swapTables (writeMode : String) (tgt temp : List Rec) : List Rec :=
  if writeMode = "replace" then temp
  else if writeMode = "truncate" then temp
  else tgt ++ temp

/-- Model of the non-historize branch of `load` (lines 358-406) applied to
the target produced by `pre_load_hook`.  A failure is caught by the
handler of lines 399-406 and returned as a failed-status result; nothing
undoes rows already committed by insert_rows or the truncate committed by
the hook. -/
def loadNonHistorized (writeMode : String) (useTemp : Bool) (data : List Rec)
    (tgt : List Rec) (failAt : Option Nat) : LoadResult × List Rec :=
  if data.isEmpty then (emptyLoadResult, tgt)
  else if useTemp then
    match insertRowsChunked 1000 data failAt [] with
    | (some _, _) => ({ rowsLoaded := 0, status := "failed", durationSeconds := 0 }, tgt)
    | (none, temp) =>
        ({ rowsLoaded := data.length, status := "success", durationSeconds := 0 },
          swapTables writeMode tgt temp)
  else
    match insertRowsChunked 1000 data failAt tgt with
    | (some _, tblAfter) =>
        ({ rowsLoaded := 0, status := "failed", durationSeconds := 0 }, tblAfter)
    | (none, tblAfter) =>
        ({ rowsLoaded := data.length, status := "success", durationSeconds := 0 }, tblAfter)

/-- Whole non-historize load operation: pre_load_hook then load. -/
def fullNonHistLoad (writeMode : String) (threshold : Nat) (data : List Rec)
    (tgt : List Rec) (failAt : Option Nat) : LoadResult × List Rec :=
  match preLoadHook writeMode threshold data tgt with
  | (tgt1, useTemp, _) => loadNonHistorized writeMode useTemp data tgt1 failAt

/-- Model of the historize branch of `load` (lines 281-356 and 399-406).
`tEnrich` and `tMerge` are the two separate datetime.now() samples of
lines 168 and 635.  When a merge phase fails, the inner handler of lines
348-356 rolls the transaction back and re-raises, but the raised exception
propagates to the outer handler of lines 399-406, which catches it and
returns a failed-status result; the function therefore always returns. -/
def loadHistorized (trackDeletes : Bool) (digest : String → String) (idColumns : List String)
    (tEnrich tMerge : Nat) (runId : Option String) (sourceSystem batchId : String)
    (mergeFailAt : Option MergePhase) (data : List Rec) (tgt : List Row) :
    LoadResult × List Row :=
  if data.isEmpty then (emptyLoadResult, tgt)
  else
    let staging := enrichWithSystemColumns digest idColumns tEnrich runId sourceSystem batchId data
    match runMergeTx mergeFailAt trackDeletes tMerge staging tgt with
    | Except.ok newTgt =>
        ({ rowsLoaded := data.length, status := "success", durationSeconds := 0 }, newTgt)
    | Except.error _ =>
        ({ rowsLoaded := 0, status := "failed", durationSeconds := 0 }, tgt)

/-! ### Configuration validation -/

/-- The historization sub-dictionary of the configuration. -/
structure HistorizationOptions where
  enabled : Option Bool := none
  idColumns : Option (List String) := none
  hashAlgorithm : Option String := none
  trackDeletes : Option Bool := none
deriving Repr, DecidableEq

/-- The configuration dictionary, with absent keys as `none`. -/
structure PostgresConfig where
  postgresConnId : Option String := none
  schemaName : Option String := none
  tableName : Option String := none
  writeMode : Option String := none
  createTable : Option Bool := none
  tempTableThreshold : Option Nat := none
  historization : Option HistorizationOptions := none
deriving Repr, DecidableEq

/-- Model of `validate_config` (lines 87-114).  Python truthiness: a
missing or empty table_name is falsy (line 94), a missing or empty
id_columns list is falsy (line 106). -/
def validateConfig (cfg : PostgresConfig) : Except String Unit :=
  if cfg.tableName = none ∨ cfg.tableName = some "" then
    Except.error "missing table_name"
  else
    let writeMode := cfg.writeMode.getD "historize"
    if ¬ (writeMode = "append" ∨ writeMode = "truncate" ∨ writeMode = "replace" ∨
        writeMode = "historize") then
      Except.error "invalid write_mode"
    else if writeMode = "historize" then
      let hist := cfg.historization.getD {}
      if hist.idColumns = none ∨ hist.idColumns = some [] then
        Except.error "missing historization id_columns"
      else
        let algo := hist.hashAlgorithm.getD "md5"
        if ¬ (algo = "md5" ∨ algo = "sha256") then Except.error "invalid hash_algorithm"
        else Except.ok ()
    else Except.ok ()

/-- Constructed destination state (the fields `__init__` stores at lines
68-85). -/
structure PostgresDestinationState where
  postgresConnId : String
  schemaName : String
  tableName : String
  writeMode : String
  createTable : Bool
  tempTableThreshold : Nat
  historizationEnabled : Bool
  idColumns : List String
  hashAlgorithm : String
  trackDeletes : Bool
deriving Repr, DecidableEq

/-- Model of `__init__` (lines 58-85): validate_config runs first and any
configuration error surfaces before the fields are read; the constructor
performs no I/O at all (the database hook is only created later, inside
pre_load_hook/load/post_load_hook), so the whole construction is a pure
function of the configuration. -/
def mkPostgresDestination (cfg : PostgresConfig) : Except String PostgresDestinationState :=
  match validateConfig cfg with
  | Except.error e => Except.error e
  | Except.ok _ =>
      let hist := cfg.historization.getD {}
      let writeMode := cfg.writeMode.getD "historize"
      Except.ok
        { postgresConnId := cfg.postgresConnId.getD "postgres_default",
          schemaName := cfg.schemaName.getD "public",
          tableName := cfg.tableName.getD "",
          writeMode := writeMode,
          createTable := cfg.createTable.getD true,
          tempTableThreshold := cfg.tempTableThreshold.getD 1000,
          historizationEnabled :=
            if writeMode = "historize" then hist.enabled.getD true else false,
          idColumns := hist.idColumns.getD [],
          hashAlgorithm := hist.hashAlgorithm.getD "md5",
          trackDeletes := hist.trackDeletes.getD true }

/-- The configuration conditions under which validate_config raises. -/
def configError (cfg : PostgresConfig) : Prop :=
  cfg.tableName = none ∨ cfg.tableName = some "" ∨
    ¬ ((cfg.writeMode.getD "historize") = "append" ∨
        (cfg.writeMode.getD "historize") = "truncate" ∨
        (cfg.writeMode.getD "historize") = "replace" ∨
        (cfg.writeMode.getD "historize") = "historize") ∨
    ((cfg.writeMode.getD "historize") = "historize" ∧
      ((cfg.historization.getD {}).idColumns = none ∨
        (cfg.historization.getD {}).idColumns = some [] ∨
        ¬ (((cfg.historization.getD {}).hashAlgorithm.getD "md5") = "md5" ∨
            ((cfg.historization.getD {}).hashAlgorithm.getD "md5") = "sha256")))

/-- Append-mode configuration carrying an out-of-range hash_algorithm in
its historization block. -/
def cfgAppendCrc32 : PostgresConfig :=
  { tableName := some "t", writeMode := some "append",
    historization := some { idColumns := some ["a"], hashAlgorithm := some "crc32" } }

/-- Configuration with no table_name. -/
def cfgNoTable : PostgresConfig := { tableName := none }

/-! ### Timestamp provenance (for claim C5) -/

/-- Every timestamp field of `r` either equals the merge timestamp `t` (or
null) or is carried over unchanged from a pre-merge target row. -/
def stampOK (t : Nat) (tgt : List Row) (r : Row) : Prop :=
  (r.validFrom = t ∨ ∃ r0 ∈ tgt, r.validFrom = r0.validFrom) ∧
    (r.validTo = none ∨ r.validTo = some t ∨ ∃ r0 ∈ tgt, r.validTo = r0.validTo) ∧
    (r.deletedAt = none ∨ r.deletedAt = some t ∨ ∃ r0 ∈ tgt, r.deletedAt = r0.deletedAt) ∧
    (r.loadedAt = t ∨ ∃ r0 ∈ tgt, r.loadedAt = r0.loadedAt)

/-! ### Concrete example rows (used by counterexamples and witnesses) -/

/-- Target row: version R of entity H, marked deleted at time 1 but never
superseded (_valid_to = null). -/
def cexRowA : Row :=
  { idHash := "H", recordHash := "R", validFrom := 0, validTo := none, deletedAt := some 1,
    loadedAt := 0, pipelineRunId := none, sourceSystem := "src", loadBatchId := "b0",
    data := [("id", "1")] }

/-- A second deleted, never superseded row for the same entity and content,
deleted at time 2. -/
def cexRowB : Row := { cexRowA with deletedAt := some 2, loadBatchId := "b0x" }

/-- Staging row for entity H carrying the same record hash R. -/
def cexStagingRow : Row :=
  { idHash := "H", recordHash := "R", validFrom := 4, validTo := none, deletedAt := none,
    loadedAt := 4, pipelineRunId := none, sourceSystem := "src", loadBatchId := "b1",
    data := [("id", "1")] }

/-! ## Theorems

Order facts for the canonical sort, then the claims. -/

theorem bool_eq_false {b : Bool} (h : ¬ b = true) : b = false := by
  cases b
  · rfl
  · exact absurd rfl h

theorem charListLt_nil_right : ∀ l : List Char, charListLt l [] = false
  | [] => rfl
  | _ :: _ => rfl

theorem charListLt_irrefl (l : List Char) : charListLt l l = false := by
  induction l with
  | nil => rfl
  | cons a as ih => simp only [charListLt, if_neg (lt_irrefl a), ih]

theorem charListLt_asymm : ∀ a b : List Char, charListLt a b = true → charListLt b a = false
  | [], [], h => by simp [charListLt] at h
  | [], _ :: _, _ => rfl
  | _ :: _, [], h => by simp [charListLt] at h
  | a :: as, b :: bs, h => by
      by_cases hab : a < b
      · simp only [charListLt, if_neg (lt_asymm hab), if_pos hab]
      · by_cases hba : b < a
        · simp only [charListLt, if_neg hab, if_pos hba] at h
          exact Bool.noConfusion h
        · simp only [charListLt, if_neg hab, if_neg hba] at h
          simp only [charListLt, if_neg hba, if_neg hab]
          exact charListLt_asymm as bs h

theorem charListLt_connex :
    ∀ a b : List Char, charListLt a b = false → charListLt b a = false → a = b
  | [], [], _, _ => rfl
  | [], _ :: _, h1, _ => by simp [charListLt] at h1
  | _ :: _, [], _, h2 => by simp [charListLt] at h2
  | a :: as, b :: bs, h1, h2 => by
      by_cases hab : a < b
      · simp only [charListLt, if_pos hab] at h1
        exact Bool.noConfusion h1
      · by_cases hba : b < a
        · simp only [charListLt, if_pos hba] at h2
          exact Bool.noConfusion h2
        · simp only [charListLt, if_neg hab, if_neg hba] at h1
          simp only [charListLt, if_neg hba, if_neg hab] at h2
          have hhead : a = b := le_antisymm (not_lt.mp hba) (not_lt.mp hab)
          have htail : as = bs := charListLt_connex as bs h1 h2
          rw [hhead, htail]

theorem charListLt_trans :
    ∀ a b c : List Char, charListLt a b = true → charListLt b c = true →
      charListLt a c = true
  | _, b, [], _, h2 => by rw [charListLt_nil_right b] at h2; exact Bool.noConfusion h2
  | [], _, _ :: _, _, _ => rfl
  | a :: as, [], _ :: _, h1, _ => by
      rw [charListLt_nil_right (a :: as)] at h1; exact Bool.noConfusion h1
  | a :: as, b :: bs, c :: cs, h1, h2 => by
      by_cases hab : a < b
      · by_cases hbc : b < c
        · simp only [charListLt, if_pos (lt_trans hab hbc)]
        · by_cases hcb : c < b
          · simp only [charListLt] at h2
            rw [if_neg hbc, if_pos hcb] at h2
            exact Bool.noConfusion h2
          · have hbceq : b = c := le_antisymm (not_lt.mp hcb) (not_lt.mp hbc)
            subst hbceq
            simp only [charListLt, if_pos hab]
      · by_cases hba : b < a
        · simp only [charListLt, if_neg hab, if_pos hba] at h1
          exact Bool.noConfusion h1
        · have habeq : a = b := le_antisymm (not_lt.mp hba) (not_lt.mp hab)
          subst habeq
          simp only [charListLt, if_neg hab, if_neg hba] at h1
          by_cases hac : a < c
          · simp only [charListLt, if_pos hac]
          · by_cases hca : c < a
            · simp only [charListLt, if_neg hac, if_pos hca] at h2
              exact Bool.noConfusion h2
            · simp only [charListLt, if_neg hac, if_neg hca] at h2 ⊢
              exact charListLt_trans as bs cs h1 h2

theorem strLt_irrefl (a : String) : strLt a a = false := charListLt_irrefl a.data

theorem strLt_asymm {a b : String} (h : strLt a b = true) : strLt b a = false :=
  charListLt_asymm a.data b.data h

theorem strLt_connex {a b : String} (h1 : strLt a b = false) (h2 : strLt b a = false) :
    a = b :=
  String.ext (charListLt_connex a.data b.data h1 h2)

theorem strLt_trans {a b c : String} (h1 : strLt a b = true) (h2 : strLt b c = true) :
    strLt a c = true :=
  charListLt_trans a.data b.data c.data h1 h2

theorem strNotLt_trans {a b c : String} (h1 : strLt b a = false) (h2 : strLt c b = false) :
    strLt c a = false := by
  by_cases hca : strLt c a = true
  · by_cases hbc : strLt b c = true
    · exact absurd (strLt_trans hbc hca) (by rw [h1]; exact fun hx => Bool.noConfusion hx)
    · have : b = c := strLt_connex (bool_eq_false hbc) h2
      subst this
      exact absurd hca (by rw [h1]; exact fun hx => Bool.noConfusion hx)
  · exact bool_eq_false hca

theorem pairLe_total (x y : String × String) : pairLe x y ∨ pairLe y x := by
  by_cases h1 : strLt x.1 y.1 = true
  · exact Or.inl (Or.inl h1)
  · by_cases h2 : strLt y.1 x.1 = true
    · exact Or.inr (Or.inl h2)
    · have hk : x.1 = y.1 := strLt_connex (bool_eq_false h1) (bool_eq_false h2)
      by_cases hv : strLt y.2 x.2 = true
      · exact Or.inr (Or.inr ⟨hk.symm, strLt_asymm hv⟩)
      · exact Or.inl (Or.inr ⟨hk, bool_eq_false hv⟩)

theorem pairLe_trans (x y z : String × String) (h1 : pairLe x y) (h2 : pairLe y z) :
    pairLe x z := by
  rcases h1 with h1 | ⟨hk1, hv1⟩
  · rcases h2 with h2 | ⟨hk2, _⟩
    · exact Or.inl (strLt_trans h1 h2)
    · exact Or.inl (hk2 ▸ h1)
  · rcases h2 with h2 | ⟨hk2, hv2⟩
    · exact Or.inl (hk1 ▸ h2)
    · exact Or.inr ⟨hk1.trans hk2, strNotLt_trans hv1 hv2⟩

theorem pairLe_antisymm (x y : String × String) (h1 : pairLe x y) (h2 : pairLe y x) :
    x = y := by
  rcases h1 with h1 | ⟨hk1, hv1⟩
  · rcases h2 with h2 | ⟨hk2, _⟩
    · exact absurd h2 (by rw [strLt_asymm h1]; exact fun hx => Bool.noConfusion hx)
    · rw [hk2] at h1
      exact absurd h1 (by rw [strLt_irrefl]; exact fun hx => Bool.noConfusion hx)
  · rcases h2 with h2 | ⟨hk2, hv2⟩
    · rw [hk1] at h2
      exact absurd h2 (by rw [strLt_irrefl]; exact fun hx => Bool.noConfusion hx)
    · have hv : x.2 = y.2 := strLt_connex hv2 hv1
      exact Prod.ext hk1 hv

theorem sortedItems_perm (r : Rec) : (sortedItems r).Perm r :=
  List.perm_insertionSort pairLe r

theorem sortedItems_sorted (r : Rec) : List.Sorted pairLe (sortedItems r) := by
  haveI : IsTotal (String × String) pairLe := ⟨pairLe_total⟩
  haveI : IsTrans (String × String) pairLe := ⟨pairLe_trans⟩
  exact List.sorted_insertionSort pairLe r

theorem sortedItems_eq_of_perm {r1 r2 : Rec} (h : r1.Perm r2) :
    sortedItems r1 = sortedItems r2 := by
  haveI : IsAntisymm (String × String) pairLe := ⟨pairLe_antisymm⟩
  exact List.eq_of_perm_of_sorted
    ((sortedItems_perm r1).trans (h.trans (sortedItems_perm r2).symm))
    (sortedItems_sorted r1) (sortedItems_sorted r2)

theorem joinSep_cons_of_ne_nil (sep x : String) {l : List String} (h : l ≠ []) :
    joinSep sep (x :: l) = x ++ sep ++ joinSep sep l := by
  cases l with
  | nil => exact absurd rfl h
  | cons y ys => rfl

theorem joinSep_slot_eq (sep : String) :
    ∀ (P : List String) (x y : String) (Q : List String),
      joinSep sep (P ++ x :: Q) = joinSep sep (P ++ y :: Q) → x = y := by
  intro P
  induction P with
  | nil =>
      intro x y Q h
      cases Q with
      | nil => simpa [joinSep] using h
      | cons q qs =>
          simp only [List.nil_append] at h
          rw [joinSep_cons_of_ne_nil sep x (by simp), joinSep_cons_of_ne_nil sep y (by simp)]
            at h
          have hd := congrArg String.data h
          rw [String.data_append, String.data_append] at hd
          have h1 : (x ++ sep).data = (y ++ sep).data := List.append_cancel_right hd
          rw [String.data_append, String.data_append] at h1
          exact String.ext (List.append_cancel_right h1)
  | cons p P ih =>
      intro x y Q h
      have hne1 : P ++ x :: Q ≠ [] := by simp
      have hne2 : P ++ y :: Q ≠ [] := by simp
      rw [List.cons_append, List.cons_append, joinSep_cons_of_ne_nil sep p hne1,
        joinSep_cons_of_ne_nil sep p hne2] at h
      have hd := congrArg String.data h
      rw [String.data_append, String.data_append] at hd
      exact ih x y Q (String.ext (List.append_cancel_left hd))

theorem recordCanonical_update_ne (r : Rec) (k v v2 : String)
    (hnd : (r.map Prod.fst).Nodup) (hmem : (k, v) ∈ r) (hne : v ≠ v2) :
    recordCanonical (updateValue k v2 r) ≠ recordCanonical r := by
  classical
  set f : String × String → String × String := fun kv => if kv.1 = k then (k, v2) else kv
    with hf
  have hfst : ∀ kv : String × String, (f kv).1 = kv.1 := by
    intro kv
    by_cases h : kv.1 = k
    · simp [hf, h]
    · simp [hf, h]
  have hupd : updateValue k v2 r = r.map f := rfl
  set L := sortedItems r with hL
  have hLperm : L.Perm r := sortedItems_perm r
  have hLnd : (L.map Prod.fst).Nodup := ((hLperm.map Prod.fst).nodup_iff).mpr hnd
  have hsorted : sortedItems (updateValue k v2 r) = L.map f := by
    haveI : IsAntisymm (String × String) pairLe := ⟨pairLe_antisymm⟩
    have hperm : (sortedItems (updateValue k v2 r)).Perm (L.map f) :=
      (sortedItems_perm _).trans (hupd ▸ (hLperm.map f).symm)
    have hs2 : List.Sorted pairLe (L.map f) := by
      have hSL : List.Sorted pairLe L := sortedItems_sorted r
      have hpne : List.Pairwise (fun a b : String × String => a.1 ≠ b.1) L :=
        List.pairwise_map.mp hLnd
      refine List.pairwise_map.mpr ((List.Pairwise.and hSL hpne).imp ?_)
      rintro a b ⟨hab, hud⟩
      rcases hab with h1 | ⟨h1, _⟩
      · exact Or.inl (by rw [hfst a, hfst b]; exact h1)
      · exact absurd h1 hud
    exact List.eq_of_perm_of_sorted hperm (sortedItems_sorted _) hs2
  have hmemL : (k, v) ∈ L := hLperm.mem_iff.mpr hmem
  obtain ⟨pre, post, hsplit⟩ := List.append_of_mem hmemL
  have hndsplit : (pre.map Prod.fst ++ k :: post.map Prod.fst).Nodup := by
    have := hLnd
    rw [hsplit] at this
    simpa using this
  have hkpre : ∀ kv ∈ pre, kv.1 ≠ k := by
    intro kv hkv heq
    have hmk : (k : String) ∈ pre.map Prod.fst := List.mem_map.mpr ⟨kv, hkv, heq⟩
    have hdisj := (List.nodup_append.mp hndsplit).2.2
    exact hdisj hmk (List.mem_cons_self k _)
  have hkpost : ∀ kv ∈ post, kv.1 ≠ k := by
    intro kv hkv heq
    have hnd2 : (k :: post.map Prod.fst).Nodup := (List.nodup_append.mp hndsplit).2.1
    have hmk : (k : String) ∈ post.map Prod.fst := List.mem_map.mpr ⟨kv, hkv, heq⟩
    exact (List.nodup_cons.mp hnd2).1 hmk
  have hfpre : pre.map f = pre := by
    have hmc : ∀ kv ∈ pre, f kv = id kv := by
      intro kv hkv
      simp [hf, hkpre kv hkv]
    rw [List.map_congr_left hmc, List.map_id]
  have hfpost : post.map f = post := by
    have hmc : ∀ kv ∈ post, f kv = id kv := by
      intro kv hkv
      simp [hf, hkpost kv hkv]
    rw [List.map_congr_left hmc, List.map_id]
  have hfk : f (k, v) = (k, v2) := by simp [hf]
  intro hcontra
  rw [recordCanonical, recordCanonical, hsorted, ← hL, hsplit, List.map_append,
    List.map_cons, hfpre, hfpost, hfk, List.map_append, List.map_cons, List.map_append,
    List.map_cons] at hcontra
  have hxy := joinSep_slot_eq "|" (pre.map renderItem) _ _ (post.map renderItem) hcontra
  have hd := congrArg String.data hxy
  rw [renderItem, renderItem] at hd
  rw [String.data_append, String.data_append, String.data_append, String.data_append] at hd
  exact hne (String.ext (List.append_cancel_left hd)).symm

theorem idValue_append_missing (r : Rec) (c x : String)
    (hmiss : (r.find? fun kv => kv.1 == c) = none) :
    idValue (r ++ [(c, "")]) x = idValue r x := by
  unfold idValue
  rw [List.find?_append]
  cases hfr : r.find? fun kv => kv.1 == x with
  | some kv => simp
  | none =>
      simp only [Option.none_or]
      by_cases hxc : x = c
      · subst hxc
        simp
      · have : (([(c, "")] : Rec).find? fun kv => kv.1 == x) = none := by
          rw [List.find?_cons_of_neg]
          · rfl
          · simp only [beq_iff_eq]
            exact fun h => hxc h.symm
        rw [this]

/-- C7: for records containing the same field-to-value mapping the record
hash is identical regardless of field insertion order; with an injective
digest, changing the value of any single field changes the record hash;
the identity hash depends only on the values of the configured identifying
columns; and a missing identifying column is treated as the empty string
(appending the column with an empty value changes nothing), not as an
error. -/
theorem C7_hash_determinism (digest : String → String) :
    (∀ r1 r2 : Rec, r1.Perm r2 →
        calculateRecordHash digest r1 = calculateRecordHash digest r2) ∧
      (Function.Injective digest →
        ∀ (r : Rec) (k v v2 : String), (r.map Prod.fst).Nodup → (k, v) ∈ r → v ≠ v2 →
          calculateRecordHash digest (updateValue k v2 r) ≠ calculateRecordHash digest r) ∧
      (∀ (idColumns : List String) (r1 r2 : Rec),
          (∀ c ∈ idColumns, idValue r1 c = idValue r2 c) →
          calculateIdHash digest idColumns r1 = calculateIdHash digest idColumns r2) ∧
      (∀ (idColumns : List String) (r : Rec) (c : String),
          (r.find? fun kv => kv.1 == c) = none →
          calculateIdHash digest idColumns (r ++ [(c, "")]) =
            calculateIdHash digest idColumns r) := by
  refine ⟨?_, ?_, ?_, ?_⟩
  · intro r1 r2 h
    unfold calculateRecordHash recordCanonical
    rw [sortedItems_eq_of_perm h]
  · intro hinj r k v v2 hnd hmem hne hcontra
    exact recordCanonical_update_ne r k v v2 hnd hmem hne (hinj hcontra)
  · intro idColumns r1 r2 h
    unfold calculateIdHash idCanonical
    rw [List.map_congr_left h]
  · intro idColumns r c hmiss
    unfold calculateIdHash idCanonical
    rw [List.map_congr_left fun x _ => idValue_append_missing r c x hmiss]

/-- C7 witness: the four parts of the hash-determinism theorem applied to
concrete records with the identity digest. -/
theorem C7_hash_determinism_witness :
    calculateRecordHash (fun s => s) [("name", "Alice"), ("id", "1")] =
        calculateRecordHash (fun s => s) [("id", "1"), ("name", "Alice")] ∧
      calculateRecordHash (fun s => s) (updateValue "name" "Alicia" [("id", "1"), ("name", "Alice")]) ≠
        calculateRecordHash (fun s => s) [("id", "1"), ("name", "Alice")] ∧
      calculateIdHash (fun s => s) ["id"] [("id", "1"), ("name", "Alice")] =
        calculateIdHash (fun s => s) ["id"] [("id", "1"), ("name", "Alicia")] ∧
      calculateIdHash (fun s => s) ["id", "region"] ([("id", "1")] ++ [("region", "")]) =
        calculateIdHash (fun s => s) ["id", "region"] [("id", "1")] :=
  ⟨(C7_hash_determinism _).1 _ _ (by decide),
    (C7_hash_determinism _).2.1 (fun _ _ h => h) _ "name" "Alice" "Alicia" (by decide)
      (by decide) (by decide),
    (C7_hash_determinism _).2.2.1 ["id"] _ _ (by decide),
    (C7_hash_determinism _).2.2.2 ["id", "region"] _ "region" (by decide)⟩

/-- C10: the canonicalization is not injective because the "|" separator
and the ":" key-value delimiter are not escaped: two different records
produce the same canonical string (and hence equal digests under any
digest function), and likewise for the identifying-value canonicalization. -/
theorem C10_canonicalization_not_injective :
    (([("a", "1"), ("b", "2"), ("c", "3")] : Rec) ≠ [("a", "1"), ("b", "2|c:3")] ∧
        recordCanonical [("a", "1"), ("b", "2"), ("c", "3")] =
          recordCanonical [("a", "1"), ("b", "2|c:3")] ∧
        ∀ digest : String → String,
          calculateRecordHash digest [("a", "1"), ("b", "2"), ("c", "3")] =
            calculateRecordHash digest [("a", "1"), ("b", "2|c:3")]) ∧
      (([("x", "1|2"), ("y", "3")] : Rec) ≠ [("x", "1"), ("y", "2|3")] ∧
        idCanonical ["x", "y"] [("x", "1|2"), ("y", "3")] =
          idCanonical ["x", "y"] [("x", "1"), ("y", "2|3")] ∧
        ∀ digest : String → String,
          calculateIdHash digest ["x", "y"] [("x", "1|2"), ("y", "3")] =
            calculateIdHash digest ["x", "y"] [("x", "1"), ("y", "2|3")]) :=
  ⟨⟨by decide, by decide, fun d => congrArg d (by decide)⟩,
    ⟨by decide, by decide, fun d => congrArg d (by decide)⟩⟩


/-! ### Counting lemmas for the merge phases -/

theorem restoreRow_validTo (t : Nat) (staging : List Row) (r : Row) :
    (restoreRow t staging r).validTo = r.validTo := by
  unfold restoreRow
  split <;> rfl

theorem restoreRow_idHash (t : Nat) (staging : List Row) (r : Row) :
    (restoreRow t staging r).idHash = r.idHash := by
  unfold restoreRow
  split <;> rfl

theorem deleteRow_validTo (t : Nat) (staging : List Row) (r : Row) :
    (deleteRow t staging r).validTo = r.validTo := by
  unfold deleteRow
  split <;> rfl

theorem deleteRow_idHash (t : Nat) (staging : List Row) (r : Row) :
    (deleteRow t staging r).idHash = r.idHash := by
  unfold deleteRow
  split <;> rfl

theorem tipAt_restoreRow (h : String) (t : Nat) (staging : List Row) (r : Row) :
    tipAt h (restoreRow t staging r) = tipAt h r := by
  unfold tipAt
  rw [restoreRow_validTo, restoreRow_idHash]

theorem tipAt_deleteRow (h : String) (t : Nat) (staging : List Row) (r : Row) :
    tipAt h (deleteRow t staging r) = tipAt h r := by
  unfold tipAt
  rw [deleteRow_validTo, deleteRow_idHash]

theorem tipAt_supersedeRow (h : String) (t : Nat) (staging : List Row) (r : Row)
    (hr : tipAt h (supersedeRow t staging r) = true) : tipAt h r = true := by
  unfold supersedeRow at hr
  by_cases hc : (r.validTo.isNone && r.deletedAt.isNone &&
      staging.any fun s => s.idHash == r.idHash && s.recordHash != r.recordHash) = true
  · rw [if_pos hc] at hr
    simp [tipAt] at hr
  · rwa [if_neg hc] at hr

theorem restorePhase_tip_count (t : Nat) (staging tgt : List Row) (h : String) :
    (restorePhase t staging tgt).countP (tipAt h) = tgt.countP (tipAt h) := by
  unfold restorePhase
  rw [List.countP_map]
  exact List.countP_congr fun r _ => by rw [Function.comp_apply, tipAt_restoreRow]

theorem deletePhase_tip_count (t : Nat) (staging tgt : List Row) (h : String) :
    (deletePhase t staging tgt).countP (tipAt h) = tgt.countP (tipAt h) := by
  unfold deletePhase
  rw [List.countP_map]
  exact List.countP_congr fun r _ => by rw [Function.comp_apply, tipAt_deleteRow]

theorem supersedePhase_tip_le (t : Nat) (staging tgt : List Row) (h : String) :
    (supersedePhase t staging tgt).countP (tipAt h) ≤ tgt.countP (tipAt h) := by
  unfold supersedePhase
  rw [List.countP_map]
  exact List.countP_mono_left fun r _ hr => tipAt_supersedeRow h t staging r hr

theorem insertPhase_eq_append (t : Nat) (staging tgt : List Row) :
    insertPhase t staging tgt =
      tgt ++ (staging.filter fun s => !hasMatchingCurrent tgt s).map (insertRowOfStaging t) := by
  cases staging with
  | nil => simp [insertPhase]
  | cons a as => rfl

theorem tip_zero_of_inserted (t : Nat) (staging tgt : List Row) (s : Row)
    (hs : s ∈ staging)
    (hpass : hasMatchingCurrent (supersedePhase t staging (restorePhase t staging tgt)) s
      = false) :
    (supersedePhase t staging (restorePhase t staging tgt)).countP (tipAt s.idHash) = 0 := by
  rw [List.countP_eq_zero]
  intro r2 hr2 htip
  unfold supersedePhase restorePhase at hr2
  obtain ⟨r1, hr1, hr1eq⟩ := List.mem_map.mp hr2
  obtain ⟨r0, hr0, hr0eq⟩ := List.mem_map.mp hr1
  -- the supersede update cannot have fired on r1, else r2 would not be a tip
  have hcond : (r1.validTo.isNone && r1.deletedAt.isNone &&
      staging.any fun s2 => s2.idHash == r1.idHash && s2.recordHash != r1.recordHash)
      = false := by
    by_cases hc : (r1.validTo.isNone && r1.deletedAt.isNone &&
        staging.any fun s2 => s2.idHash == r1.idHash && s2.recordHash != r1.recordHash)
        = true
    · rw [← hr1eq] at htip
      unfold supersedeRow at htip
      rw [if_pos hc] at htip
      simp [tipAt] at htip
    · exact bool_eq_false hc
  have hr2r1 : r2 = r1 := by
    rw [← hr1eq]
    unfold supersedeRow
    rw [if_neg (by rw [hcond]; exact fun hx => Bool.noConfusion hx)]
  rw [hr2r1] at htip
  have htip2 : r1.validTo = none ∧ r1.idHash = s.idHash := by
    simpa [tipAt, Bool.and_eq_true, Option.isNone_iff_eq_none, beq_iff_eq] using htip
  -- after the restore phase the row cannot still be marked deleted
  have hdel : r1.deletedAt = none := by
    by_cases hres : (r0.deletedAt.isSome && r0.validTo.isNone &&
        staging.any fun s2 => s2.idHash == r0.idHash) = true
    · rw [← hr0eq]
      unfold restoreRow
      rw [if_pos hres]
    · have hr1r0 : r1 = r0 := by
        rw [← hr0eq]
        unfold restoreRow
        rw [if_neg (by rw [bool_eq_false hres]; exact fun hx => Bool.noConfusion hx)]
      have hvt : r0.validTo = none := by rw [← hr1r0]; exact htip2.1
      have hid : r0.idHash = s.idHash := by rw [← hr1r0]; exact htip2.2
      have hany : (staging.any fun s2 => s2.idHash == r0.idHash) = true :=
        List.any_eq_true.mpr ⟨s, hs, by simp [hid]⟩
      have hds : r0.deletedAt.isSome = false := by
        cases hx : r0.deletedAt.isSome
        · rfl
        · exact absurd (by rw [hx, hany, hvt]; rfl) hres
      rw [hr1r0]
      cases hda : r0.deletedAt with
      | none => rfl
      | some x => rw [hda] at hds; exact Bool.noConfusion hds
  -- the failed supersede condition forces s to agree on the record hash
  have hsrec : s.recordHash = r1.recordHash := by
    by_contra hne
    have hany3 : (staging.any fun s2 =>
        s2.idHash == r1.idHash && s2.recordHash != r1.recordHash) = true :=
      List.any_eq_true.mpr ⟨s, hs, by
        rw [htip2.2]
        simp [hne]⟩
    have hbig : (r1.validTo.isNone && r1.deletedAt.isNone &&
        staging.any fun s2 => s2.idHash == r1.idHash && s2.recordHash != r1.recordHash)
        = true := by
      rw [htip2.1, hdel, hany3]
      rfl
    rw [hbig] at hcond
    exact Bool.noConfusion hcond
  -- so r1 is a current row matching s, contradicting the insert condition
  have hmatch : hasMatchingCurrent (supersedePhase t staging (restorePhase t staging tgt)) s
      = true := by
    unfold hasMatchingCurrent
    refine List.any_eq_true.mpr ⟨r2, hr2, ?_⟩
    rw [hr2r1, htip2.2, ← hsrec, htip2.1, hdel]
    simp
  rw [hmatch] at hpass
  exact Bool.noConfusion hpass

theorem inserted_tip_le_one (t : Nat) (staging tgt2 : List Row) (h : String)
    (hnd : uniqueIdHashes staging) :
    ((staging.filter fun s => !hasMatchingCurrent tgt2 s).map (insertRowOfStaging t)).countP
      (tipAt h) ≤ 1 := by
  rw [List.countP_map]
  have step1 : List.countP (tipAt h ∘ insertRowOfStaging t)
      (staging.filter fun s => !hasMatchingCurrent tgt2 s) =
      List.countP (fun s => s.idHash == h)
        (staging.filter fun s => !hasMatchingCurrent tgt2 s) :=
    List.countP_congr fun s _ => by simp [Function.comp, tipAt, insertRowOfStaging]
  rw [step1, List.countP_filter]
  calc List.countP (fun s => (s.idHash == h) && !hasMatchingCurrent tgt2 s) staging
      ≤ List.countP (fun s => s.idHash == h) staging :=
        List.countP_mono_left fun s _ hs => by
          simp only [Bool.and_eq_true] at hs
          exact hs.1
    _ = List.countP (fun x => x == h) (staging.map Row.idHash) := by
        rw [List.countP_map]
        rfl
    _ = List.count h (staging.map Row.idHash) := (List.count_eq_countP h _).symm
    _ ≤ 1 := List.nodup_iff_count_le_one.mp hnd h

/-- C1 (amended): provided the input batch has unique identifying keys, the
historize merge preserves the strengthened invariant that every id_hash
has at most one row with _valid_to = null; in particular, after such a
merge every id_hash has at most one current row (_valid_to = null and
_deleted_at = null).  The at-most-one-current property alone is not
inductive (see the counterexample), but this strengthening is, and it
holds in every table reachable by these merges. -/
theorem C1_merge_preserves_at_most_one_current (td : Bool) (t : Nat) (staging tgt : List Row)
    (hnd : uniqueIdHashes staging) (hinv : atMostOneTip tgt) :
    atMostOneTip (mergeHistorizedData td t staging tgt) ∧
      atMostOneCurrent (mergeHistorizedData td t staging tgt) := by
  have key : atMostOneTip
      (insertPhase t staging (supersedePhase t staging (restorePhase t staging tgt))) := by
    intro h
    rw [insertPhase_eq_append, List.countP_append]
    have hbase : (supersedePhase t staging (restorePhase t staging tgt)).countP (tipAt h)
        ≤ tgt.countP (tipAt h) :=
      le_trans (supersedePhase_tip_le t staging _ h)
        (le_of_eq (restorePhase_tip_count t staging tgt h))
    rcases Nat.eq_zero_or_pos
        (((staging.filter fun s =>
              !hasMatchingCurrent (supersedePhase t staging (restorePhase t staging tgt)) s).map
            (insertRowOfStaging t)).countP (tipAt h)) with hz | hp
    · have hle := hinv h
      omega
    · obtain ⟨x, hx, hxt⟩ := List.countP_pos_iff.mp hp
      obtain ⟨s, hsf, hseq⟩ := List.mem_map.mp hx
      have hsmem : s ∈ staging := List.mem_of_mem_filter hsf
      have hspass := List.of_mem_filter hsf
      have hpassf : hasMatchingCurrent
          (supersedePhase t staging (restorePhase t staging tgt)) s = false := by
        simpa using hspass
      have hsid : s.idHash = h := by
        rw [← hseq] at hxt
        simpa [tipAt, insertRowOfStaging] using hxt
      have hzero := tip_zero_of_inserted t staging tgt s hsmem hpassf
      rw [hsid] at hzero
      have hle := inserted_tip_le_one t staging
        (supersedePhase t staging (restorePhase t staging tgt)) h hnd
      omega
  have hmerge_eq : mergeHistorizedData td t staging tgt =
      (if td then
        deletePhase t staging
          (insertPhase t staging (supersedePhase t staging (restorePhase t staging tgt)))
      else insertPhase t staging (supersedePhase t staging (restorePhase t staging tgt))) := by
    cases td <;> rfl
  have hmergeTip : atMostOneTip (mergeHistorizedData td t staging tgt) := by
    rw [hmerge_eq]
    cases td
    · exact key
    · intro h
      show (deletePhase t staging
          (insertPhase t staging
            (supersedePhase t staging (restorePhase t staging tgt)))).countP (tipAt h) ≤ 1
      rw [deletePhase_tip_count]
      exact key h
  refine ⟨hmergeTip, fun h => ?_⟩
  have hmono : (mergeHistorizedData td t staging tgt).countP (currentAt h) ≤
      (mergeHistorizedData td t staging tgt).countP (tipAt h) :=
    List.countP_mono_left fun r _ hr => by
      simp only [currentAt, isCurrentRow, tipAt, Bool.and_eq_true] at hr ⊢
      exact ⟨hr.1.1, hr.2⟩
  exact le_trans hmono (hmergeTip h)

/-- C1 counterexample: at-most-one-current is not by itself preserved by
the merge.  The pre-merge target holds two deleted rows with _valid_to =
null for the same id_hash and the same record_hash (so it has no current
row at all and satisfies at-most-one-current), the batch has unique
identifying keys, yet the restore phase revives both rows and neither the
supersede nor the insert phase retires either of them: the post-merge
table has two current rows for id_hash "H". -/
theorem C1_at_most_one_current_counterexample :
    uniqueIdHashes [cexStagingRow] ∧ atMostOneCurrent [cexRowA, cexRowB] ∧
      ¬ atMostOneCurrent (mergeHistorizedData true 5 [cexStagingRow] [cexRowA, cexRowB]) := by
  refine ⟨by unfold uniqueIdHashes; decide, fun h => ?_, fun hcl => ?_⟩
  · have h0 : List.countP (currentAt h) [cexRowA, cexRowB] = 0 :=
      List.countP_eq_zero.mpr (by
        intro r hr hcur
        rcases List.mem_cons.mp hr with h1 | h1
        · rw [h1] at hcur
          simp [currentAt, isCurrentRow, cexRowA] at hcur
        · rcases List.mem_cons.mp h1 with h2 | h2
          · rw [h2] at hcur
            simp [currentAt, isCurrentRow, cexRowB, cexRowA] at hcur
          · exact absurd h2 (List.not_mem_nil r))
    rw [h0]
    exact Nat.zero_le 1
  · have h2 : List.countP (currentAt "H")
        (mergeHistorizedData true 5 [cexStagingRow] [cexRowA, cexRowB]) = 2 := by decide
    have := hcl "H"
    omega

/-- C1 witness: the amended preservation theorem applied to a concrete
batch and target. -/
theorem C1_at_most_one_current_witness :
    atMostOneTip (mergeHistorizedData true 7 [cexStagingRow] [cexRowA]) ∧
      atMostOneCurrent (mergeHistorizedData true 7 [cexStagingRow] [cexRowA]) :=
  C1_merge_preserves_at_most_one_current true 7 [cexStagingRow] [cexRowA]
    (by unfold uniqueIdHashes; decide)
    (fun h => by
      have h0 : List.countP (tipAt h) [cexRowA] ≤ List.countP (fun _ => true) [cexRowA] :=
        List.countP_mono_left fun r _ _ => rfl
      simpa using le_trans h0 (by simp))

/-! ### Phase-by-phase agreement between the SQL embedding and the spec
wording -/

theorem restorePhase_eq_spec (t : Nat) (staging tgt : List Row) :
    restorePhase t staging tgt = restoreSpec t staging tgt := by
  unfold restorePhase restoreSpec
  apply List.map_congr_left
  intro r _
  by_cases h : r.deletedAt ≠ none ∧ r.validTo = none ∧ r.idHash ∈ staging.map Row.idHash
  · have hb : (r.deletedAt.isSome && r.validTo.isNone &&
        staging.any fun s => s.idHash == r.idHash) = true := by
      obtain ⟨h1, h2, h3⟩ := h
      obtain ⟨s, hsmem, hseq⟩ := List.mem_map.mp h3
      have hany : (staging.any fun s => s.idHash == r.idHash) = true :=
        List.any_eq_true.mpr ⟨s, hsmem, by simp [hseq]⟩
      rw [hany, h2]
      simp [Option.isSome_iff_ne_none, h1]
    unfold restoreRow
    rw [if_pos hb, if_pos h]
  · have hb : ¬ ((r.deletedAt.isSome && r.validTo.isNone &&
        staging.any fun s => s.idHash == r.idHash) = true) := by
      intro hx
      apply h
      simp only [Bool.and_eq_true] at hx
      obtain ⟨⟨h1, h2⟩, hany⟩ := hx
      rw [Option.isSome_iff_ne_none] at h1
      rw [Option.isNone_iff_eq_none] at h2
      obtain ⟨s, hsmem, hseq⟩ := List.any_eq_true.mp hany
      rw [beq_iff_eq] at hseq
      exact ⟨h1, h2, List.mem_map.mpr ⟨s, hsmem, hseq⟩⟩
    unfold restoreRow
    rw [if_neg hb, if_neg h]

theorem supersedePhase_eq_spec (t : Nat) (staging tgt : List Row) :
    supersedePhase t staging tgt = supersedeSpec t staging tgt := by
  unfold supersedePhase supersedeSpec
  apply List.map_congr_left
  intro r _
  by_cases h : r.validTo = none ∧ r.deletedAt = none ∧
      ∃ s ∈ staging, s.idHash = r.idHash ∧ s.recordHash ≠ r.recordHash
  · have hb : (r.validTo.isNone && r.deletedAt.isNone &&
        staging.any fun s => s.idHash == r.idHash && s.recordHash != r.recordHash)
        = true := by
      obtain ⟨h1, h2, s, hsmem, hid, hrec⟩ := h
      have hany : (staging.any fun s => s.idHash == r.idHash && s.recordHash != r.recordHash)
          = true :=
        List.any_eq_true.mpr ⟨s, hsmem, by simp [hid, hrec]⟩
      rw [hany, h1, h2]
      rfl
    unfold supersedeRow
    rw [if_pos hb, if_pos h]
  · have hb : ¬ ((r.validTo.isNone && r.deletedAt.isNone &&
        staging.any fun s => s.idHash == r.idHash && s.recordHash != r.recordHash)
        = true) := by
      intro hx
      apply h
      simp only [Bool.and_eq_true] at hx
      obtain ⟨⟨h1, h2⟩, hany⟩ := hx
      rw [Option.isNone_iff_eq_none] at h1 h2
      obtain ⟨s, hsmem, hseq⟩ := List.any_eq_true.mp hany
      simp only [Bool.and_eq_true, beq_iff_eq, bne_iff_ne] at hseq
      exact ⟨h1, h2, s, hsmem, hseq.1, hseq.2⟩
    unfold supersedeRow
    rw [if_neg hb, if_neg h]

theorem hasMatchingCurrent_iff (tgt : List Row) (s : Row) :
    hasMatchingCurrent tgt s = true ↔
      ∃ r ∈ tgt, r.validTo = none ∧ r.deletedAt = none ∧ r.idHash = s.idHash ∧
        r.recordHash = s.recordHash := by
  unfold hasMatchingCurrent
  rw [List.any_eq_true]
  constructor
  · rintro ⟨r, hr, hb⟩
    simp only [Bool.and_eq_true, beq_iff_eq, Option.isNone_iff_eq_none] at hb
    refine ⟨r, hr, ?_, ?_, ?_, ?_⟩ <;> tauto
  · rintro ⟨r, hr, h1, h2, h3, h4⟩
    refine ⟨r, hr, ?_⟩
    rw [h1, h2, h3, h4]
    simp

theorem insertPhase_eq_spec (t : Nat) (staging tgt : List Row) :
    insertPhase t staging tgt = insertSpec t staging tgt := by
  rw [insertPhase_eq_append]
  unfold insertSpec
  have hfilter : (staging.filter fun s => !hasMatchingCurrent tgt s) =
      staging.filter fun s =>
        decide (¬ ∃ r ∈ tgt, r.validTo = none ∧ r.deletedAt = none ∧
          r.idHash = s.idHash ∧ r.recordHash = s.recordHash) := by
    apply List.filter_congr
    intro s _
    by_cases hex : ∃ r ∈ tgt, r.validTo = none ∧ r.deletedAt = none ∧
        r.idHash = s.idHash ∧ r.recordHash = s.recordHash
    · rw [(hasMatchingCurrent_iff tgt s).mpr hex]
      simp [hex]
    · have hmc : hasMatchingCurrent tgt s = false := by
        cases hx : hasMatchingCurrent tgt s
        · rfl
        · exact absurd ((hasMatchingCurrent_iff tgt s).mp hx) hex
      rw [hmc]
      simp [hex]
  rw [hfilter]

theorem deletePhase_eq_spec (t : Nat) (staging tgt : List Row) :
    deletePhase t staging tgt = deleteSpec t staging tgt := by
  unfold deletePhase deleteSpec
  apply List.map_congr_left
  intro r _
  by_cases h : r.validTo = none ∧ r.deletedAt = none ∧ r.idHash ∉ staging.map Row.idHash
  · have hb : (r.validTo.isNone && r.deletedAt.isNone &&
        !(staging.any fun s => s.idHash == r.idHash)) = true := by
      obtain ⟨h1, h2, h3⟩ := h
      have hany : (staging.any fun s => s.idHash == r.idHash) = false := by
        cases hx : staging.any fun s => s.idHash == r.idHash
        · rfl
        · obtain ⟨s, hsmem, hseq⟩ := List.any_eq_true.mp hx
          rw [beq_iff_eq] at hseq
          exact absurd (List.mem_map.mpr ⟨s, hsmem, hseq⟩) h3
      rw [hany, h1, h2]
      rfl
    unfold deleteRow
    rw [if_pos hb, if_pos h]
  · have hb : ¬ ((r.validTo.isNone && r.deletedAt.isNone &&
        !(staging.any fun s => s.idHash == r.idHash)) = true) := by
      intro hx
      apply h
      simp only [Bool.and_eq_true] at hx
      obtain ⟨⟨h1, h2⟩, hna⟩ := hx
      rw [Option.isNone_iff_eq_none] at h1 h2
      refine ⟨h1, h2, ?_⟩
      intro hmem
      obtain ⟨s, hsmem, hseq⟩ := List.mem_map.mp hmem
      have hany : (staging.any fun s => s.idHash == r.idHash) = true :=
        List.any_eq_true.mpr ⟨s, hsmem, by simp [hseq]⟩
      rw [hany] at hna
      exact Bool.noConfusion hna
    unfold deleteRow
    rw [if_neg hb, if_neg h]

/-- C2: the historize merge executes exactly the four phases in the fixed
order restore, supersede, insert, delete, each phase acting as the
specification words it (restore clears _deleted_at and sets _valid_from
for non-superseded deleted rows whose id_hash appears in staging;
supersede retires current rows contradicted by a staging row with a
different record_hash; insert adds every staging row with no matching
current target row; delete marks current rows with an id_hash absent from
staging), and the delete phase runs only when track_deletes is enabled. -/
theorem C2_merge_is_four_ordered_phases (trackDeletes : Bool) (t : Nat)
    (staging tgt : List Row) :
    mergeHistorizedData trackDeletes t staging tgt = mergeSpec trackDeletes t staging tgt := by
  have h1 : mergeHistorizedData trackDeletes t staging tgt =
      (if trackDeletes then
        deletePhase t staging
          (insertPhase t staging (supersedePhase t staging (restorePhase t staging tgt)))
      else
        insertPhase t staging (supersedePhase t staging (restorePhase t staging tgt))) := by
    cases trackDeletes <;> rfl
  have h2 : mergeSpec trackDeletes t staging tgt =
      (if trackDeletes then
        deleteSpec t staging
          (insertSpec t staging (supersedeSpec t staging (restoreSpec t staging tgt)))
      else
        insertSpec t staging (supersedeSpec t staging (restoreSpec t staging tgt))) := by
    cases trackDeletes <;> rfl
  rw [h1, h2, restorePhase_eq_spec, supersedePhase_eq_spec, insertPhase_eq_spec]
  cases trackDeletes
  · rfl
  · show deletePhase t staging _ = deleteSpec t staging _
    rw [deletePhase_eq_spec]

/-! ### Transaction rollback -/

theorem mergeTxGo_error_of_mem (t : Nat) (staging : List Row) (p : MergePhase) :
    ∀ (ps : List MergePhase) (work : List Row), p ∈ ps →
      mergeTxGo (some p) t staging ps work = Except.error "merge phase failed" := by
  intro ps
  induction ps with
  | nil => intro work h; exact absurd h (List.not_mem_nil p)
  | cons q qs ih =>
      intro work hmem
      by_cases hpq : (some p : Option MergePhase) = some q
      · unfold mergeTxGo
        rw [if_pos hpq]
      · unfold mergeTxGo
        rw [if_neg hpq]
        apply ih
        rcases List.mem_cons.mp hmem with h | h
        · exact absurd (by rw [h]) hpq
        · exact h

/-- C3: a failure in any of the merge phases that actually run aborts the
transaction: the run reports an error and the committed target table after
the failed merge is exactly the table before the merge started (the
ROLLBACK of lines 787-791 discards every phase already executed).  A run
without failure commits precisely the four-phase merge result. -/
theorem C3_merge_failure_rolls_back (td : Bool) (t : Nat) (staging tgt : List Row)
    (p : MergePhase) (hp : p ∈ phaseList td) :
    runMergeTx (some p) td t staging tgt = Except.error "merge phase failed" ∧
      observedTableAfterMerge (some p) td t staging tgt = tgt ∧
      runMergeTx none td t staging tgt = Except.ok (mergeHistorizedData td t staging tgt) := by
  have herr : runMergeTx (some p) td t staging tgt = Except.error "merge phase failed" :=
    mergeTxGo_error_of_mem t staging p (phaseList td) tgt hp
  refine ⟨herr, ?_, ?_⟩
  · unfold observedTableAfterMerge
    rw [herr]
  · cases td <;> simp [runMergeTx, phaseList, mergeTxGo, applyPhase, mergeHistorizedData]

/-- C3 witness: a failure injected into the insert phase leaves a concrete
one-row target untouched. -/
theorem C3_merge_failure_rolls_back_witness :
    observedTableAfterMerge (some MergePhase.insert) true 9 [cexStagingRow] [cexRowA]
      = [cexRowA] :=
  (C3_merge_failure_rolls_back true 9 [cexStagingRow] [cexRowA] MergePhase.insert
    (by decide)).2.1

/-- C4: the claim that every write mode rolls the target back to its
pre-operation state on a runtime failure is violated by the code: in
truncate mode with a batch below the temp-table threshold, pre_load_hook
truncates (and commits) the target before load runs, so when the insert
then fails, load returns a failed result while the target stays empty
instead of regaining its pre-operation row. -/
theorem C4_truncate_failure_keeps_truncated_table :
    (fullNonHistLoad "truncate" 1000 [[("id", "2")]] [[("id", "1")]] (some 0)).1.status
        = "failed" ∧
      (fullNonHistLoad "truncate" 1000 [[("id", "2")]] [[("id", "1")]] (some 0)).2 = [] ∧
      ([] : List Rec) ≠ [[("id", "1")]] := by
  refine ⟨rfl, rfl, by decide⟩

/-- C6: the claim that a historize-mode failure is re-raised to the caller
of load is violated by the code: the inner handler of lines 348-356 rolls
back and re-raises, but the re-raised exception is caught by the outer
handler of lines 399-406, so load returns a failed-status result in
historize mode exactly as it does in the non-historize modes.  Evaluated
on a historize load whose supersede phase fails, and on a non-historize
append load whose insert fails. -/
theorem C6_historize_failure_returns_failed_result :
    (loadHistorized true (fun s => s) ["id"] 0 1 none "src" "b"
          (some MergePhase.supersede) [[("id", "1")]] []).1 =
        { rowsLoaded := 0, status := "failed", durationSeconds := 0 } ∧
      (loadHistorized true (fun s => s) ["id"] 0 1 none "src" "b"
          (some MergePhase.supersede) [[("id", "1")]] []).2 = [] ∧
      (fullNonHistLoad "append" 1000 [[("id", "1")]] [] (some 0)).1.status = "failed" := by
  refine ⟨by decide, by decide, rfl⟩

/-! ### Timestamp provenance -/

theorem stampOK_of_mem (t : Nat) (tgt : List Row) (r : Row) (hr : r ∈ tgt) :
    stampOK t tgt r :=
  ⟨Or.inr ⟨r, hr, rfl⟩, Or.inr (Or.inr ⟨r, hr, rfl⟩), Or.inr (Or.inr ⟨r, hr, rfl⟩),
    Or.inr ⟨r, hr, rfl⟩⟩

theorem stampOK_trans (t : Nat) (mid tgt : List Row)
    (hmid : ∀ x ∈ mid, stampOK t tgt x) (r : Row) (hr : stampOK t mid r) :
    stampOK t tgt r := by
  obtain ⟨h1, h2, h3, h4⟩ := hr
  refine ⟨?_, ?_, ?_, ?_⟩
  · rcases h1 with h | ⟨r0, hr0, he⟩
    · exact Or.inl h
    · rcases (hmid r0 hr0).1 with h | ⟨r1, hr1, he1⟩
      · exact Or.inl (he.trans h)
      · exact Or.inr ⟨r1, hr1, he.trans he1⟩
  · rcases h2 with h | h | ⟨r0, hr0, he⟩
    · exact Or.inl h
    · exact Or.inr (Or.inl h)
    · rcases (hmid r0 hr0).2.1 with h | h | ⟨r1, hr1, he1⟩
      · exact Or.inl (he.trans h)
      · exact Or.inr (Or.inl (he.trans h))
      · exact Or.inr (Or.inr ⟨r1, hr1, he.trans he1⟩)
  · rcases h3 with h | h | ⟨r0, hr0, he⟩
    · exact Or.inl h
    · exact Or.inr (Or.inl h)
    · rcases (hmid r0 hr0).2.2.1 with h | h | ⟨r1, hr1, he1⟩
      · exact Or.inl (he.trans h)
      · exact Or.inr (Or.inl (he.trans h))
      · exact Or.inr (Or.inr ⟨r1, hr1, he.trans he1⟩)
  · rcases h4 with h | ⟨r0, hr0, he⟩
    · exact Or.inl h
    · rcases (hmid r0 hr0).2.2.2 with h | ⟨r1, hr1, he1⟩
      · exact Or.inl (he.trans h)
      · exact Or.inr ⟨r1, hr1, he.trans he1⟩

theorem restorePhase_stampOK (t : Nat) (staging l : List Row) :
    ∀ r ∈ restorePhase t staging l, stampOK t l r := by
  intro r hr
  obtain ⟨r0, hr0, heq⟩ := List.mem_map.mp hr
  rw [← heq]
  unfold restoreRow
  split
  · exact ⟨Or.inl rfl, Or.inr (Or.inr ⟨r0, hr0, rfl⟩), Or.inl rfl, Or.inr ⟨r0, hr0, rfl⟩⟩
  · exact stampOK_of_mem t l r0 hr0

theorem supersedePhase_stampOK (t : Nat) (staging l : List Row) :
    ∀ r ∈ supersedePhase t staging l, stampOK t l r := by
  intro r hr
  obtain ⟨r0, hr0, heq⟩ := List.mem_map.mp hr
  rw [← heq]
  unfold supersedeRow
  split
  · exact ⟨Or.inr ⟨r0, hr0, rfl⟩, Or.inr (Or.inl rfl), Or.inr (Or.inr ⟨r0, hr0, rfl⟩),
      Or.inr ⟨r0, hr0, rfl⟩⟩
  · exact stampOK_of_mem t l r0 hr0

theorem deletePhase_stampOK (t : Nat) (staging l : List Row) :
    ∀ r ∈ deletePhase t staging l, stampOK t l r := by
  intro r hr
  obtain ⟨r0, hr0, heq⟩ := List.mem_map.mp hr
  rw [← heq]
  unfold deleteRow
  split
  · exact ⟨Or.inr ⟨r0, hr0, rfl⟩, Or.inr (Or.inr ⟨r0, hr0, rfl⟩), Or.inr (Or.inl rfl),
      Or.inr ⟨r0, hr0, rfl⟩⟩
  · exact stampOK_of_mem t l r0 hr0

theorem insertPhase_stampOK (t : Nat) (staging l : List Row) :
    ∀ r ∈ insertPhase t staging l, stampOK t l r := by
  intro r hr
  rw [insertPhase_eq_append] at hr
  rcases List.mem_append.mp hr with h | h
  · exact stampOK_of_mem t l r h
  · obtain ⟨s, _, hseq⟩ := List.mem_map.mp h
    rw [← hseq]
    exact ⟨Or.inl rfl, Or.inl rfl, Or.inl rfl, Or.inl rfl⟩

/-- C5 (amended): each of the two steps of a historize load samples the
clock once, never per row or per phase: system-column enrichment stamps
every record of the batch with its single timestamp (line 168), and the
four merge phases write no timestamp other than the single merge timestamp
of line 635 (every timestamp in the post-merge table is either the merge
timestamp, null, or carried over unchanged from the pre-merge table).  But
the enrichment sample and the merge sample are two separate clock reads,
so the staging timestamps written by enrichment need not equal the merge
timestamp (see the counterexample). -/
theorem C5_single_timestamp_per_step (digest : String → String) (idColumns : List String)
    (tEnrich : Nat) (runId : Option String) (src batch : String) (data : List Rec)
    (td : Bool) (tMerge : Nat) (staging tgt : List Row) :
    (∀ r ∈ enrichWithSystemColumns digest idColumns tEnrich runId src batch data,
        r.validFrom = tEnrich ∧ r.loadedAt = tEnrich ∧ r.validTo = none ∧
          r.deletedAt = none) ∧
      (∀ r ∈ mergeHistorizedData td tMerge staging tgt, stampOK tMerge tgt r) := by
  constructor
  · intro r hr
    obtain ⟨rec, _, heq⟩ := List.mem_map.mp hr
    rw [← heq]
    exact ⟨rfl, rfl, rfl, rfl⟩
  · intro r hr
    have hmerge_eq : mergeHistorizedData td tMerge staging tgt =
        (if td then
          deletePhase tMerge staging
            (insertPhase tMerge staging
              (supersedePhase tMerge staging (restorePhase tMerge staging tgt)))
        else
          insertPhase tMerge staging
            (supersedePhase tMerge staging (restorePhase tMerge staging tgt))) := by
      cases td <;> rfl
    rw [hmerge_eq] at hr
    have hchain : ∀ x ∈ insertPhase tMerge staging
        (supersedePhase tMerge staging (restorePhase tMerge staging tgt)),
        stampOK tMerge tgt x := by
      intro x hx
      refine stampOK_trans tMerge _ tgt ?_ x (insertPhase_stampOK tMerge staging _ x hx)
      intro y hy
      refine stampOK_trans tMerge _ tgt ?_ y (supersedePhase_stampOK tMerge staging _ y hy)
      intro z hz
      exact restorePhase_stampOK tMerge staging tgt z hz
    cases td
    · exact hchain r hr
    · simp only [if_pos rfl] at hr
      exact stampOK_trans tMerge _ tgt hchain r (deletePhase_stampOK tMerge staging _ r hr)

/-- C5 counterexample: the claim that all timestamp-valued system fields
written within one batch operation share one single timestamp is violated:
modelling the two datetime.now() calls of lines 168 and 635 as successive
clock values 0 and 1, the _valid_from and _loaded_at written into staging
by enrichment differ from the _valid_from and _loaded_at the merge writes
into the target for the very same record. -/
theorem C5_two_clock_samples_counterexample :
    ∃ sr ∈ enrichWithSystemColumns (fun s => s) ["id"] 0 none "src" "b" [[("id", "1")]],
      ∃ tr ∈ mergeHistorizedData true 1
          (enrichWithSystemColumns (fun s => s) ["id"] 0 none "src" "b" [[("id", "1")]]) [],
        sr.validFrom ≠ tr.validFrom ∧ sr.loadedAt ≠ tr.loadedAt := by decide

/-- C5 witness: the amended theorem applied to a concrete batch (clock
value 3) and a concrete merge (clock value 5). -/
theorem C5_single_timestamp_witness :
    stampOK 5 [cexRowA] { cexRowA with deletedAt := none, validFrom := 5 } ∧
      ({ idHash := "1", recordHash := "id:1", validFrom := 3, validTo := none,
          deletedAt := none, loadedAt := 3, pipelineRunId := none, sourceSystem := "src",
          loadBatchId := "b", data := [("id", "1")] } : Row).validFrom = 3 :=
  ⟨(C5_single_timestamp_per_step (fun s => s) ["id"] 3 none "src" "b" [[("id", "1")]]
        true 5 [cexStagingRow] [cexRowA]).2
      { cexRowA with deletedAt := none, validFrom := 5 } (by decide),
    ((C5_single_timestamp_per_step (fun s => s) ["id"] 3 none "src" "b" [[("id", "1")]]
        true 5 [cexStagingRow] [cexRowA]).1
      { idHash := "1", recordHash := "id:1", validFrom := 3, validTo := none,
        deletedAt := none, loadedAt := 3, pipelineRunId := none, sourceSystem := "src",
        loadBatchId := "b", data := [("id", "1")] } (by decide)).1⟩

/-! ### Empty batch and configuration validation -/

/-- C8: in every write mode, an empty input batch short-circuits: load
returns rows_loaded 0, status success and duration 0, the target table is
untouched, no relation-level operation is performed, and pre_load_hook
does nothing. -/
theorem C8_empty_batch_no_op (writeMode : String) (threshold : Nat) (tgt : List Rec)
    (tgtH : List Row) (digest : String → String) (idColumns : List String) (td : Bool)
    (tEnrich tMerge : Nat) (runId : Option String) (src batch : String)
    (failIns : Option Nat) (mergeFailAt : Option MergePhase) :
    preLoadHook writeMode threshold [] tgt = (tgt, false, []) ∧
      fullNonHistLoad writeMode threshold [] tgt failIns = (emptyLoadResult, tgt) ∧
      loadHistorized td digest idColumns tEnrich tMerge runId src batch mergeFailAt [] tgtH
        = (emptyLoadResult, tgtH) ∧
      emptyLoadResult = { rowsLoaded := 0, status := "success", durationSeconds := 0 } :=
  ⟨rfl, rfl, rfl, rfl⟩

/-- C9 counterexample: an out-of-range hash_algorithm does not raise at
construction time when write_mode is not historize — validate_config only
checks hash_algorithm inside the historize branch (lines 104-114), so this
append-mode configuration with hash_algorithm "crc32" constructs
successfully, contradicting the claim as stated. -/
theorem C9_config_validation_counterexample :
    validateConfig cfgAppendCrc32 = Except.ok () ∧
      (mkPostgresDestination cfgAppendCrc32).isOk = true := by
  refine ⟨rfl, rfl⟩

/-- C9 (amended): construction fails exactly when the configuration is
invalid — table_name missing or empty, write_mode outside the four
permitted values, or, when the effective write_mode is historize,
id_columns missing or empty or hash_algorithm outside md5/sha256 — and any
such error is raised by validate_config and surfaces from the constructor
before anything else happens (the constructor is a pure function that
performs no I/O; the database hook is only created inside the load
hooks). -/
theorem C9_config_errors_raise_at_construction (cfg : PostgresConfig) :
    ((∃ e, validateConfig cfg = Except.error e) ↔ configError cfg) ∧
      (∀ e, validateConfig cfg = Except.error e →
        mkPostgresDestination cfg = Except.error e) := by
  constructor
  · unfold validateConfig configError
    constructor
    · rintro ⟨e, he⟩
      by_cases h1 : cfg.tableName = none ∨ cfg.tableName = some ""
      · tauto
      · rw [if_neg h1] at he
        by_cases h2 : ¬ ((cfg.writeMode.getD "historize") = "append" ∨
            (cfg.writeMode.getD "historize") = "truncate" ∨
            (cfg.writeMode.getD "historize") = "replace" ∨
            (cfg.writeMode.getD "historize") = "historize")
        · tauto
        · rw [if_neg h2] at he
          by_cases h3 : (cfg.writeMode.getD "historize") = "historize"
          · rw [if_pos h3] at he
            by_cases h4 : (cfg.historization.getD {}).idColumns = none ∨
                (cfg.historization.getD {}).idColumns = some []
            · tauto
            · rw [if_neg h4] at he
              by_cases h5 : ¬ (((cfg.historization.getD {}).hashAlgorithm.getD "md5")
                  = "md5" ∨
                  ((cfg.historization.getD {}).hashAlgorithm.getD "md5") = "sha256")
              · tauto
              · rw [if_neg h5] at he
                exact absurd he (by simp)
          · rw [if_neg h3] at he
            exact absurd he (by simp)
    · intro h
      by_cases h1 : cfg.tableName = none ∨ cfg.tableName = some ""
      · rw [if_pos h1]
        exact ⟨"missing table_name", rfl⟩
      · rw [if_neg h1]
        by_cases h2 : (cfg.writeMode.getD "historize") = "append" ∨
            (cfg.writeMode.getD "historize") = "truncate" ∨
            (cfg.writeMode.getD "historize") = "replace" ∨
            (cfg.writeMode.getD "historize") = "historize"
        · rw [if_neg (not_not_intro h2)]
          by_cases h3 : (cfg.writeMode.getD "historize") = "historize"
          · rw [if_pos h3]
            by_cases h4 : (cfg.historization.getD {}).idColumns = none ∨
                (cfg.historization.getD {}).idColumns = some []
            · rw [if_pos h4]
              exact ⟨"missing historization id_columns", rfl⟩
            · rw [if_neg h4]
              by_cases h5 : ((cfg.historization.getD {}).hashAlgorithm.getD "md5") = "md5" ∨
                  ((cfg.historization.getD {}).hashAlgorithm.getD "md5") = "sha256"
              · exfalso
                rcases h with h | h | h | h
                · exact h1 (Or.inl h)
                · exact h1 (Or.inr h)
                · exact h h2
                · rcases h.2 with hx | hx | hx
                  · exact h4 (Or.inl hx)
                  · exact h4 (Or.inr hx)
                  · exact hx h5
              · rw [if_pos h5]
                exact ⟨"invalid hash_algorithm", rfl⟩
          · exfalso
            rcases h with h | h | h | h
            · exact h1 (Or.inl h)
            · exact h1 (Or.inr h)
            · exact h h2
            · exact h3 h.1
        · rw [if_pos h2]
          exact ⟨"invalid write_mode", rfl⟩
  · intro e he
    unfold mkPostgresDestination
    rw [he]

/-- C9 witness: the amended theorem applied to a configuration with no
table_name. -/
theorem C9_config_errors_witness :
    mkPostgresDestination cfgNoTable = Except.error "missing table_name" :=
  (C9_config_errors_raise_at_construction cfgNoTable).2 "missing table_name" rfl

end DataForge
